import Mathlib

/-
Verification of the arithmetic-expression pipeline in `parser_edts.py`
(lexer, recursive-descent parser, decorated AST, tree-walking evaluator).

Modelling conventions:
* Python `int` is modelled as `Int`, Python `float` as an exact rational `ℚ`
  (the examples only involve exactly representable values; the int/float
  distinction is kept as a tag, mirroring Python's numeric-type promotion).
* The regex scan of `Lexer._tokenize` (alternation NUMBER | ID | operators |
  SKIP | MISMATCH, with `re.finditer` silently skipping a position no pattern
  matches, i.e. a newline, since `.` does not match `'\n'`) is transcribed as
  a character-list scanner.  `\d` and `\w` are modelled over ASCII.
* Recursion over token/char lists uses an explicit fuel argument so every
  definition is structurally recursive and kernel-evaluable; the wrappers pass
  fuel larger than the input length, and every recursive call consumes at
  least one character/token, so the `outOfFuel` marker is never reached from
  the wrappers.
-/

deriving instance DecidableEq for Except

namespace EDTS

/-- Numeric values: Python `int` tagged `intV`, Python `float` tagged `floatV`
(modelled as an exact rational). -/
inductive Value where
  | intV (n : Int)
  | floatV (q : ℚ)
deriving DecidableEq, Repr

/-- Numeric content of a value, as used by Python's arithmetic and by the
comparison `right_val == 0`. -/
def Value.toRat : Value → ℚ
  | .intV n => (n : ℚ)
  | .floatV q => q

/-- Python `+`: int+int stays int, any float operand gives float. -/
def vadd : Value → Value → Value
  | .intV a, .intV b => .intV (a + b)
  | a, b => .floatV (a.toRat + b.toRat)

/-- Python `-`: int-int stays int, any float operand gives float. -/
def vsub : Value → Value → Value
  | .intV a, .intV b => .intV (a - b)
  | a, b => .floatV (a.toRat - b.toRat)

/-- Python `*`: int*int stays int, any float operand gives float. -/
def vmul : Value → Value → Value
  | .intV a, .intV b => .intV (a * b)
  | a, b => .floatV (a.toRat * b.toRat)

/-- Python `/`: true division, always a float. -/
def vdiv (a b : Value) : Value := .floatV (a.toRat / b.toRat)

/-- Lexical error: `raise SyntaxError(f"Caracter inválido: {value!r}")` in
`Lexer._tokenize`.  The exception message carries only the offending
character, no position.  `outOfFuel` is the fuel-exhaustion marker of the
embedding; it is never reached from `tokenize`. -/
inductive LexError where
  | invalidChar (c : Char)
  | outOfFuel
deriving DecidableEq, Repr

/-- A token: `Token(type_, lexeme)` from the source. -/
structure Token where
  type : String
  lexeme : String
deriving DecidableEq, Repr

/-- The EOF token `Token("EOF", "")` yielded at the end of `_tokenize`. -/
def eofTok : Token := ⟨"EOF", ""⟩

/-- First character of an `ID` match: `[a-zA-Z_]`. -/
def isIdStart (c : Char) : Bool := c.isAlpha || c = '_'

/-- Continuation character of an `ID` match: `\w`, i.e. `[a-zA-Z0-9_]`
(ASCII model). -/
def isWordChar (c : Char) : Bool := c.isAlpha || c.isDigit || c = '_'

/-- The single-character operator/paren patterns of `TOKEN_SPEC`. -/
def opToken? (c : Char) : Option Token :=
  if c = '+' then some ⟨"PLUS", "+"⟩
  else if c = '-' then some ⟨"MINUS", "-"⟩
  else if c = '*' then some ⟨"MUL", "*"⟩
  else if c = '/' then some ⟨"DIV", "/"⟩
  else if c = '(' then some ⟨"LPAREN", "("⟩
  else if c = ')' then some ⟨"RPAREN", ")"⟩
  else none

/-- One pass of `Lexer._tokenize`: at each position try, in `TOKEN_SPEC`
order, `NUMBER = \d+(\.\d+)?` (greedy, the fractional part needs a digit
after the dot), `ID = [a-zA-Z_]\w*`, the six single-character operators,
`SKIP = [ \t]+`, and finally `MISMATCH = .` which raises the invalid-character
error; a newline matches none of the patterns and `re.finditer` skips it. -/
def tokenizeF : Nat → List Char → Except LexError (List Token)
  | 0, _ => .error .outOfFuel
  | _ + 1, [] => .ok [eofTok]
  | fuel + 1, c :: cs =>
    if c.isDigit then
      if (List.dropWhile Char.isDigit cs).head? = some '.'
          ∧ List.takeWhile Char.isDigit (List.dropWhile Char.isDigit cs).tail ≠ [] then
        (tokenizeF fuel
            (List.dropWhile Char.isDigit (List.dropWhile Char.isDigit cs).tail)).map
          (fun ts =>
            ⟨"NUMBER", String.mk (c :: List.takeWhile Char.isDigit cs
                ++ '.' :: List.takeWhile Char.isDigit
                    (List.dropWhile Char.isDigit cs).tail)⟩ :: ts)
      else
        (tokenizeF fuel (List.dropWhile Char.isDigit cs)).map
          (fun ts => ⟨"NUMBER", String.mk (c :: List.takeWhile Char.isDigit cs)⟩ :: ts)
    else if isIdStart c then
      (tokenizeF fuel (List.dropWhile isWordChar cs)).map
        (fun ts => ⟨"ID", String.mk (c :: List.takeWhile isWordChar cs)⟩ :: ts)
    else
      match opToken? c with
      | some t => (tokenizeF fuel cs).map (fun ts => t :: ts)
      | none =>
        if c = ' ' ∨ c = '\t' then tokenizeF fuel cs
        else if c = '\n' then tokenizeF fuel cs
        else .error (.invalidChar c)

/-- Full tokenization of an input; every step of `tokenizeF` consumes at
least one character, so this fuel is never exhausted. -/
def tokenize (cs : List Char) : Except LexError (List Token) :=
  tokenizeF (cs.length + 1) cs

/-- Numeric value of a digit string, as `int(text)` computes it. -/
def digitsVal (ds : List Char) : Nat :=
  ds.foldl (fun a c => 10 * a + (c.toNat - 48)) 0

/-- Value of a numeric literal: `float(number_text) if '.' in number_text
else int(number_text)` (`NumberNode.__init__`).  The float case is modelled
exactly, as integer part plus fractional part over a power of ten. -/
def literalValue (s : String) : Value :=
  if '.' ∈ s.data then
    .floatV ((digitsVal (List.takeWhile (· != '.') s.data) : ℚ)
      + (digitsVal ((List.dropWhile (· != '.') s.data).tail) : ℚ)
        / (10 : ℚ) ^ ((List.dropWhile (· != '.') s.data).tail).length)
  else .intV (digitsVal s.data)

/-- AST nodes.  `ASTNode.__init__` gives every node a decoration slot
`self.val` (initially `None`); `NumberNode.__init__` immediately overwrites
it with the literal's numeric value, so for a `num` node the slot always
holds a value and is modelled as a plain `Value`, while `ident` and `binop`
keep an `Option Value` decoration. -/
inductive AST where
  | num (text : String) (val : Value)
  | ident (name : String) (val : Option Value)
  | binop (op : String) (left right : AST) (val : Option Value)
deriving DecidableEq, Repr

/-- `NumberNode(number_text)`: decoration computed eagerly at construction. -/
def NumberNode (text : String) : AST := .num text (literalValue text)

/-- The decoration slot of a node (`node.val`). -/
def decorOf : AST → Option Value
  | .num _ v => some v
  | .ident _ v => v
  | .binop _ _ _ v => v

/-- A `Symbol(name, tipo, valor)` entry.  The source's default `valor=None`
is not modelled: every binding carries a numeric value, as in all uses. -/
structure Symbol where
  name : String
  tipo : String
  valor : Value
deriving DecidableEq, Repr

/-- The symbol table `self.table`, a dict from names to symbols; `add`
prepends so the most recent binding for a name wins, matching dict
assignment. -/
def SymbolTable := List (String × Symbol)

/-- `SymbolTable.add(name, tipo, valor)`: insert or overwrite. -/
def SymbolTable.add (st : SymbolTable) (name : String) (tipo : String)
    (valor : Value) : SymbolTable :=
  (name, ⟨name, tipo, valor⟩) :: st

/-- `SymbolTable.get(name)`: `self.table.get(name)`, which returns the
bound symbol or `None`, never raising. -/
def SymbolTable.get (st : SymbolTable) (name : String) : Option Symbol :=
  (List.find? (fun p => p.1 == name) st).map (·.2)

/-- Parse errors, one constructor per `raise SyntaxError` in the parser:
`expected` from `eat`, `trailing` from `parse`, `unexpectedFactor` from
`factor`.  `outOfFuel` is the embedding's fuel marker, never reached from
`parseTokens`. -/
inductive ParseError where
  | expected (tokType : String) (found : Token)
  | trailing (found : Token)
  | unexpectedFactor (found : Token)
  | outOfFuel
deriving DecidableEq, Repr

/-- The parser's one-token lookahead: the head of the remaining token list
(the lexer terminates every stream with `eofTok`, so the default is never
used on lexer output). -/
def curr (ts : List Token) : Token := ts.headD eofTok

/-- `Parser.eat(token_type)`: consume the lookahead if its type matches,
else raise `Se esperaba {token_type}, encontrado {lookahead}`. -/
def eat (tokType : String) (ts : List Token) : Except ParseError (List Token) :=
  if (curr ts).type = tokType then .ok ts.tail
  else .error (.expected tokType (curr ts))

/-- The five mutually recursive pieces of the recursive-descent parser:
the methods `expr`, `term`, `factor` and the two while-loops inside `expr`
and `term` (carrying the left-folded accumulator). -/
inductive PMode where
  | expr
  | exprLoop (acc : AST)
  | term
  | termLoop (acc : AST)
  | factor
deriving DecidableEq, Repr

/-- The recursive-descent parser, one step per grammar procedure:
`expr := term (('+'|'-') term)*`, `term := factor (('*'|'/') factor)*`,
`factor := '(' expr ')' | NUMBER | ID`.  The loops build `BinOpNode(op,
node, right)` left-to-right; `factor` raises `Factor inesperado` on any
other lookahead.  The single fuel argument makes the mutual recursion
structural; `parseTokens` passes enough fuel that it is never exhausted. -/
def parseStep : Nat → PMode → List Token → Except ParseError (AST × List Token)
  | 0, _, _ => .error .outOfFuel
  | fuel + 1, mode, ts =>
    match mode with
    | .expr =>
      match parseStep fuel .term ts with
      | .error e => .error e
      | .ok (node, ts1) => parseStep fuel (.exprLoop node) ts1
    | .exprLoop node =>
      if (curr ts).type = "PLUS" ∨ (curr ts).type = "MINUS" then
        match (if (curr ts).type = "PLUS" then eat "PLUS" ts else eat "MINUS" ts) with
        | .error e => .error e
        | .ok ts1 =>
          match parseStep fuel .term ts1 with
          | .error e => .error e
          | .ok (right, ts2) =>
            parseStep fuel (.exprLoop (.binop (curr ts).lexeme node right none)) ts2
      else .ok (node, ts)
    | .term =>
      match parseStep fuel .factor ts with
      | .error e => .error e
      | .ok (node, ts1) => parseStep fuel (.termLoop node) ts1
    | .termLoop node =>
      if (curr ts).type = "MUL" ∨ (curr ts).type = "DIV" then
        match (if (curr ts).type = "MUL" then eat "MUL" ts else eat "DIV" ts) with
        | .error e => .error e
        | .ok ts1 =>
          match parseStep fuel .factor ts1 with
          | .error e => .error e
          | .ok (right, ts2) =>
            parseStep fuel (.termLoop (.binop (curr ts).lexeme node right none)) ts2
      else .ok (node, ts)
    | .factor =>
      if (curr ts).type = "LPAREN" then
        match eat "LPAREN" ts with
        | .error e => .error e
        | .ok ts1 =>
          match parseStep fuel .expr ts1 with
          | .error e => .error e
          | .ok (node, ts2) =>
            match eat "RPAREN" ts2 with
            | .error e => .error e
            | .ok ts3 => .ok (node, ts3)
      else if (curr ts).type = "NUMBER" then
        match eat "NUMBER" ts with
        | .error e => .error e
        | .ok ts1 => .ok (NumberNode (curr ts).lexeme, ts1)
      else if (curr ts).type = "ID" then
        match eat "ID" ts with
        | .error e => .error e
        | .ok ts1 => .ok (.ident (curr ts).lexeme none, ts1)
      else .error (.unexpectedFactor (curr ts))

/-- Fuel sufficient for a token list: each grammar level burns at most
three steps per consumed token. -/
def fuelFor (ts : List Token) : Nat := 3 * ts.length + 3

/-- `Parser.parse()`: parse one full `expr`, then raise
`Token extra al final: {lookahead}` if the lookahead is not EOF. -/
def parseTokens (ts : List Token) : Except ParseError AST :=
  match parseStep (fuelFor ts) .expr ts with
  | .error e => .error e
  | .ok (node, rest) =>
    if (curr rest).type = "EOF" then .ok node
    else .error (.trailing (curr rest))

/-- Errors of the whole pipeline.  The source raises `SyntaxError` for both
lexing and parsing, `NameError` for an undefined identifier,
`ZeroDivisionError` for division by zero, and `ValueError` for an unknown
operator; the spec's error taxonomy names them LexError, ParseError,
UndefinedIdentifier, DivisionByZero and InvariantViolation. -/
inductive EvalErr where
  | undefinedId (name : String)
  | divisionByZero
  | unknownOp (op : String)
deriving DecidableEq, Repr

/-- The operator dispatch of `Evaluator.eval` on a `BinOpNode` after both
children produced values: the if-chain on `node.op` over `+`, `-`, `*`,
`/` (which first raises `ZeroDivisionError` when `right_val == 0`), with the
defensive `ValueError` (`Operador desconocido`) for any other operator. -/
def opResult (op : String) (lv rv : Value) : Except EvalErr Value :=
  if op = "+" then .ok (vadd lv rv)
  else if op = "-" then .ok (vsub lv rv)
  else if op = "*" then .ok (vmul lv rv)
  else if op = "/" then
    if rv.toRat = 0 then .error .divisionByZero else .ok (vdiv lv rv)
  else .error (.unknownOp op)

/-- `Evaluator.eval(node)`: strict post-order walk.  Returns the tree as
left by the in-place decoration writes (`node.val = ...`) together with the
returned value or the raised error; on an error the writes already done to
subtrees persist, exactly as in the mutable original (a raise skips the
current node's own write).  The symbol table is only read
(`self.symtab.get`), never written, so it is not threaded. -/
def eval (st : SymbolTable) : AST → AST × Except EvalErr Value
  | .num t v => (.num t v, .ok v)
  | .ident n v =>
    match st.get n with
    | none => (.ident n v, .error (.undefinedId n))
    | some sym => (.ident n (some sym.valor), .ok sym.valor)
  | .binop op l r v =>
    match eval st l with
    | (l', .error e) => (.binop op l' r v, .error e)
    | (l', .ok lv) =>
      match eval st r with
      | (r', .error e) => (.binop op l' r' v, .error e)
      | (r', .ok rv) =>
        match opResult op lv rv with
        | .error e => (.binop op l' r' v, .error e)
        | .ok res => (.binop op l' r' (some res), .ok res)

/-- Combined error domain of the text-to-value pipeline. -/
inductive RunError where
  | lexErr (e : LexError)
  | parseErr (e : ParseError)
  | evalErr (e : EvalErr)
deriving DecidableEq, Repr

/-- Lex and parse an input string, as `Parser(Lexer(text)).parse()`. -/
def parseText (s : String) : Except RunError AST :=
  match tokenize s.data with
  | .error e => .error (.lexErr e)
  | .ok ts =>
    match parseTokens ts with
    | .error e => .error (.parseErr e)
    | .ok t => .ok t

/-- The whole pipeline: lex, parse, then evaluate against a symbol table,
as the driver does per example. -/
def run (s : String) (st : SymbolTable) : Except RunError Value :=
  match parseText s with
  | .error e => .error e
  | .ok t =>
    match (eval st t).2 with
    | .error e => .error (.evalErr e)
    | .ok v => .ok v

/-- A tree of natural numbers with the shape of an AST, used to count how
often each node's decoration slot is assigned during one evaluation pass
(`leaf` for `num`/`ident` nodes, `bin` for `binop` nodes). -/
inductive NTree where
  | leaf (k : Nat)
  | bin (k : Nat) (l r : NTree)
deriving DecidableEq, Repr

/-- Zero write-counts: the state of a tree no evaluation step has touched. -/
def zerosOf : AST → NTree
  | .num _ _ => .leaf 0
  | .ident _ _ => .leaf 0
  | .binop _ l r _ => .bin 0 (zerosOf l) (zerosOf r)

/-- One write per node: what a complete evaluation pass performs. -/
def onesOf : AST → NTree
  | .num _ _ => .leaf 1
  | .ident _ _ => .leaf 1
  | .binop _ l r _ => .bin 1 (onesOf l) (onesOf r)

/-- Instrumented mirror of `Evaluator.eval` that counts, per node, the
assignments `node.val = ...` executed by the pass (the `num` case executes
`node.val = node.val`, one write; the error branches raise before writing
the current node's slot). -/
def evalW (st : SymbolTable) : AST → NTree × Except EvalErr Value
  | .num _ v => (.leaf 1, .ok v)
  | .ident n _ =>
    match st.get n with
    | none => (.leaf 0, .error (.undefinedId n))
    | some sym => (.leaf 1, .ok sym.valor)
  | .binop op l r _ =>
    match evalW st l with
    | (cl, .error e) => (.bin 0 cl (zerosOf r), .error e)
    | (cl, .ok lv) =>
      match evalW st r with
      | (cr, .error e) => (.bin 0 cl cr, .error e)
      | (cr, .ok rv) =>
        match opResult op lv rv with
        | .error e => (.bin 0 cl cr, .error e)
        | .ok res => (.bin 1 cl cr, .ok res)

/-- The decoration state a fresh parse leaves behind: `num` nodes carry the
literal's value written by `NumberNode.__init__`, `ident` and `binop` nodes
still have the `None` written by `ASTNode.__init__`. -/
def freshlyParsed : AST → Prop
  | .num t v => v = literalValue t
  | .ident _ v => v = none
  | .binop _ l r v => v = none ∧ freshlyParsed l ∧ freshlyParsed r

/-- Boolean version of `freshlyParsed`, for concrete evaluation. -/
def freshlyParsedB : AST → Bool
  | .num t v => v == literalValue t
  | .ident _ v => v == none
  | .binop _ l r v => v == none && (freshlyParsedB l && freshlyParsedB r)

instance : DecidablePred freshlyParsed := fun t =>
  decidable_of_iff (freshlyParsedB t = true)
    (by induction t <;> simp [freshlyParsed, freshlyParsedB, *])

/-- Decoration persistence: `t'` keeps every decoration already present in
the same-shaped `t` (possibly overwritten with a value, never cleared). -/
def preservesDecor : AST → AST → Prop
  | .num _ _, .num _ _ => True
  | .ident _ v, .ident _ v' => v.isSome = true → v'.isSome = true
  | .binop _ l r v, .binop _ l' r' v' =>
      (v.isSome = true → v'.isSome = true) ∧ preservesDecor l l' ∧ preservesDecor r r'
  | _, _ => False

/-- A character on which the `MISMATCH` branch of `_tokenize` fires at the
start of a scan position: it can begin no `NUMBER`, `ID`, operator or `SKIP`
match, is not a newline (which `re.finditer` skips), and is not `'.'`
(which a preceding digit run can absorb). -/
def isMismatchChar (c : Char) : Bool :=
  !(c.isDigit || isIdStart c || (opToken? c).isSome
    || c = ' ' || c = '\t' || c = '\n' || c = '.')

/-- An `ID` token, as the lexer produces for an identifier lexeme. -/
def idTok (s : String) : Token := ⟨"ID", s⟩

def plusTok : Token := ⟨"PLUS", "+"⟩

def minusTok : Token := ⟨"MINUS", "-"⟩

def mulTok : Token := ⟨"MUL", "*"⟩

def divTok : Token := ⟨"DIV", "/"⟩

/-- Loop accumulators fed to `parseStep` are trees the parser already
built; the other modes carry no tree. -/
def modeFresh : PMode → Prop
  | .exprLoop acc => freshlyParsed acc
  | .termLoop acc => freshlyParsed acc
  | _ => True

/-- C1: on a `BinOpNode` with operator `/` whose two operands evaluate to
values `lv` and `rv`, evaluation fails with DivisionByZero exactly when the
right value equals zero, and otherwise returns the true (float-typed)
quotient of the operands, so the quotient of two integers is a float; in
particular `eval("1 / 0", {})` fails with DivisionByZero. -/
theorem c1_division (st : SymbolTable) (l r l' r' : AST) (lv rv : Value)
    (v : Option Value)
    (hl : eval st l = (l', .ok lv)) (hr : eval st r = (r', .ok rv)) :
    ((eval st (.binop "/" l r v)).2 = .error .divisionByZero ↔ rv.toRat = 0)
    ∧ (rv.toRat ≠ 0 →
        (eval st (.binop "/" l r v)).2 = .ok (.floatV (lv.toRat / rv.toRat)))
    ∧ run "1 / 0" [] = .error (.evalErr .divisionByZero) := by
  have hop : opResult "/" lv rv
      = if rv.toRat = 0 then .error .divisionByZero else .ok (vdiv lv rv) := by
    simp +decide [opResult]
  have he : eval st (.binop "/" l r v)
      = if rv.toRat = 0 then (.binop "/" l' r' v, .error .divisionByZero)
        else (.binop "/" l' r' (some (vdiv lv rv)), .ok (vdiv lv rv)) := by
    by_cases h0 : rv.toRat = 0 <;>
      simp only [eval, hl, hr, hop, h0, if_true, if_false, ite_true, ite_false]
  refine ⟨?_, ?_, by decide⟩
  · rw [he]
    by_cases h0 : rv.toRat = 0 <;> simp [h0]
  · intro h0
    rw [he]
    simp [h0, vdiv]

theorem c1_division_witness :
    ((eval [] (.binop "/" (NumberNode "1") (NumberNode "0") none)).2
        = .error .divisionByZero ↔ (Value.intV 0).toRat = 0)
    ∧ ((Value.intV 0).toRat ≠ 0 →
        (eval [] (.binop "/" (NumberNode "1") (NumberNode "0") none)).2
          = .ok (.floatV ((Value.intV 1).toRat / (Value.intV 0).toRat)))
    ∧ run "1 / 0" [] = .error (.evalErr .divisionByZero) :=
  c1_division [] (NumberNode "1") (NumberNode "0") (NumberNode "1") (NumberNode "0")
    (.intV 1) (.intV 0) none (by decide) (by decide)

/-- C2: evaluating `(3 + 5) * 2 - 4 / 2` against an empty table returns the
float `14.0` (not the integer 14, because division yields a float-typed
result), and evaluating `3 + 5 * 2` returns the integer 13. -/
theorem c2_example_values :
    run "(3 + 5) * 2 - 4 / 2" [] = .ok (.floatV 14)
    ∧ Value.floatV 14 ≠ .intV 14
    ∧ run "3 + 5 * 2" [] = .ok (.intV 13) := by
  refine ⟨?_, by decide, by decide⟩
  have h : parseText "(3 + 5) * 2 - 4 / 2" =
      .ok (.binop "-"
            (.binop "*"
              (.binop "+" (.num "3" (.intV 3)) (.num "5" (.intV 5)) none)
              (.num "2" (.intV 2)) none)
            (.binop "/" (.num "4" (.intV 4)) (.num "2" (.intV 2)) none) none) := by
    decide
  simp only [run, h]
  simp +decide only [eval, opResult, vadd, vsub, vmul, vdiv, Value.toRat]
  norm_num

/-- C4: evaluating an `IdNode` looks its name up in the symbol table and
fails with UndefinedIdentifier(name) exactly when the name is unbound;
otherwise the node's decoration is set to the resolved value, which is
returned.  `SymbolTable.get` itself is total: it yields either the bound
symbol or the absent indicator `none`, never raising. -/
theorem c4_identifier (st : SymbolTable) (name : String) (v : Option Value) :
    (st.get name = none →
      eval st (.ident name v) = (.ident name v, .error (.undefinedId name)))
    ∧ (∀ sym, st.get name = some sym →
      eval st (.ident name v) = (.ident name (some sym.valor), .ok sym.valor))
    ∧ (st.get name = none ∨ ∃ sym, st.get name = some sym) := by
  refine ⟨fun h => by simp only [eval, h], fun sym h => by simp only [eval, h], ?_⟩
  cases h : st.get name
  · exact Or.inl rfl
  · exact Or.inr ⟨_, rfl⟩

theorem preservesDecor_refl (t : AST) : preservesDecor t t := by
  induction t with
  | num text v => trivial
  | ident n v => exact fun h => h
  | binop op l r v ihl ihr => exact ⟨fun h => h, ihl, ihr⟩

/-- Evaluation never clears a decoration: every slot already set in the
input tree is still set in the tree `eval` leaves behind, whether the pass
succeeds or raises. -/
theorem eval_preservesDecor (st : SymbolTable) (t : AST) :
    preservesDecor t (eval st t).1 := by
  induction t with
  | num text v => trivial
  | ident n v => cases h : st.get n <;> simp [eval, h, preservesDecor]
  | binop op l r v ihl ihr =>
    rcases hel : eval st l with ⟨l', el⟩
    rw [hel] at ihl
    rcases el with e | lv
    · simp only [eval, hel]
      exact ⟨fun h => h, ihl, preservesDecor_refl r⟩
    · rcases her : eval st r with ⟨r', er⟩
      rw [her] at ihr
      rcases er with e | rv
      · simp only [eval, hel, her]
        exact ⟨fun h => h, ihl, ihr⟩
      · rcases hor : opResult op lv rv with e | res
        · simp only [eval, hel, her, hor]
          exact ⟨fun h => h, ihl, ihr⟩
        · simp only [eval, hel, her, hor]
          exact ⟨fun _ => rfl, ihl, ihr⟩

theorem c4_identifier_witness :
    eval [] (.ident "z" none) = (.ident "z" none, .error (.undefinedId "z"))
    ∧ eval [("x", ⟨"x", "number", .intV 7⟩)] (.ident "x" none)
      = (.ident "x" (some (.intV 7)), .ok (.intV 7)) :=
  ⟨(c4_identifier [] "z" none).1 (by decide),
   (c4_identifier [("x", ⟨"x", "number", .intV 7⟩)] "x" none).2.1
     ⟨"x", "number", .intV 7⟩ (by decide)⟩

/-- C8: if evaluating an AST against a symbol table succeeds with value `v`,
then evaluating the decorated tree it returns, against the same table, again
returns that very tree (so every node's decoration is identical both times)
and the same value `v`. -/
theorem c8_idempotent (st : SymbolTable) (t : AST) (v : Value)
    (h : (eval st t).2 = .ok v) :
    eval st ((eval st t).1) = ((eval st t).1, .ok v) := by
  induction t generalizing v with
  | num text w =>
    obtain rfl : w = v := by simpa [eval] using h
    simp [eval]
  | ident n w =>
    cases hg : st.get n with
    | none => simp [eval, hg] at h
    | some sym =>
      obtain rfl : sym.valor = v := by simpa [eval, hg] using h
      simp [eval, hg]
  | binop op l r w ihl ihr =>
    rcases hel : eval st l with ⟨l', el⟩
    rcases el with e | lv
    · simp [eval, hel] at h
    · rcases her : eval st r with ⟨r', er⟩
      rcases er with e | rv
      · simp [eval, hel, her] at h
      · rcases hor : opResult op lv rv with e | res
        · simp [eval, hel, her, hor] at h
        · obtain rfl : res = v := by simpa [eval, hel, her, hor] using h
          have hl2 : eval st l' = (l', .ok lv) := by
            have h1 := ihl lv (by rw [hel])
            rw [hel] at h1
            exact h1
          have hr2 : eval st r' = (r', .ok rv) := by
            have h1 := ihr rv (by rw [her])
            rw [her] at h1
            exact h1
          simp only [eval, hel, her, hl2, hr2, hor]

theorem c8_idempotent_witness :
    eval [] ((eval [] (.binop "+" (NumberNode "1") (NumberNode "2") none)).1)
      = ((eval [] (.binop "+" (NumberNode "1") (NumberNode "2") none)).1,
         .ok (.intV 3)) :=
  c8_idempotent [] (.binop "+" (NumberNode "1") (NumberNode "2") none)
    (.intV 3) (by decide)

/-- C10: when evaluation fails partway, decorations written before the
failure persist (evaluation never rolls a decoration back to absent), the
symbol table is untouched (`eval` only reads it, which the embedding makes
explicit by not returning a table), and no result value is produced.
Concretely, evaluating the parse of `(1+2)/(3-3)` fails with DivisionByZero,
yet both children keep their freshly written decorations `3` and `0` while
the root's slot stays absent. -/
theorem c10_failure_keeps_decorations :
    (∀ (st : SymbolTable) (t : AST), preservesDecor t (eval st t).1)
    ∧ parseText "(1+2)/(3-3)"
      = .ok (.binop "/"
          (.binop "+" (.num "1" (.intV 1)) (.num "2" (.intV 2)) none)
          (.binop "-" (.num "3" (.intV 3)) (.num "3" (.intV 3)) none) none)
    ∧ eval [] (.binop "/"
          (.binop "+" (.num "1" (.intV 1)) (.num "2" (.intV 2)) none)
          (.binop "-" (.num "3" (.intV 3)) (.num "3" (.intV 3)) none) none)
      = (.binop "/"
          (.binop "+" (.num "1" (.intV 1)) (.num "2" (.intV 2)) (some (.intV 3)))
          (.binop "-" (.num "3" (.intV 3)) (.num "3" (.intV 3)) (some (.intV 0)))
          none,
         .error .divisionByZero) :=
  ⟨fun st t => eval_preservesDecor st t, by decide, by decide⟩

/-- C7: a `NumberNode`'s value is computed eagerly at construction from the
literal's text: an integer when the text has no decimal point, else a float;
and `/` produces a float even on an exact integer quotient (4/2 = 2.0). -/
theorem c7_literal_typing (s : String) :
    NumberNode s = .num s (literalValue s)
    ∧ ('.' ∈ s.data → ∃ q, literalValue s = .floatV q)
    ∧ ('.' ∉ s.data → ∃ n : Int, literalValue s = .intV n)
    ∧ literalValue "2.5" = .floatV (5 / 2)
    ∧ literalValue "3" = .intV 3
    ∧ vdiv (.intV 4) (.intV 2) = .floatV 2 := by
  refine ⟨rfl, fun h => ?_, fun h => ?_, ?_, by decide, ?_⟩
  · rw [literalValue, if_pos h]
    exact ⟨_, rfl⟩
  · rw [literalValue, if_neg h]
    exact ⟨_, rfl⟩
  · simp [literalValue, digitsVal]
    norm_num
  · norm_num [vdiv, Value.toRat]

theorem c7_literal_typing_witness :
    (∃ q, literalValue "2.5" = .floatV q)
    ∧ (∃ n : Int, literalValue "3" = .intV n) :=
  ⟨(c7_literal_typing "2.5").2.1 (by decide),
   (c7_literal_typing "3").2.2.1 (by decide)⟩

/-- C3: for any identifiers `a b c`, two operators of the additive level
fold into a left-leaning chain (`a - b - c` parses as `(a-b)-c`), as do two
operators of the multiplicative level; and when the two levels mix in either
order, the `*`/`/` operator binds tighter than the `+`/`-` one, purely by
the grammar layering of `term` inside `expr` and `factor` inside `term`. -/
theorem c3_left_assoc_precedence (a b c : String) (o1 o2 m1 m2 : Token)
    (h1 : o1 = plusTok ∨ o1 = minusTok) (h2 : o2 = plusTok ∨ o2 = minusTok)
    (h3 : m1 = mulTok ∨ m1 = divTok) (h4 : m2 = mulTok ∨ m2 = divTok) :
    parseTokens [idTok a, o1, idTok b, o2, idTok c, eofTok]
      = .ok (.binop o2.lexeme
              (.binop o1.lexeme (.ident a none) (.ident b none) none)
              (.ident c none) none)
    ∧ parseTokens [idTok a, m1, idTok b, m2, idTok c, eofTok]
      = .ok (.binop m2.lexeme
              (.binop m1.lexeme (.ident a none) (.ident b none) none)
              (.ident c none) none)
    ∧ parseTokens [idTok a, o1, idTok b, m1, idTok c, eofTok]
      = .ok (.binop o1.lexeme (.ident a none)
              (.binop m1.lexeme (.ident b none) (.ident c none) none) none)
    ∧ parseTokens [idTok a, m1, idTok b, o1, idTok c, eofTok]
      = .ok (.binop o1.lexeme
              (.binop m1.lexeme (.ident a none) (.ident b none) none)
              (.ident c none) none) := by
  rcases h1 with rfl | rfl <;> rcases h2 with rfl | rfl <;>
    rcases h3 with rfl | rfl <;> rcases h4 with rfl | rfl <;>
    exact ⟨rfl, rfl, rfl, rfl⟩

theorem c3_left_assoc_precedence_witness :
    parseTokens [idTok "a", minusTok, idTok "b", minusTok, idTok "c", eofTok]
      = .ok (.binop "-"
              (.binop "-" (.ident "a" none) (.ident "b" none) none)
              (.ident "c" none) none)
    ∧ parseTokens [idTok "a", divTok, idTok "b", divTok, idTok "c", eofTok]
      = .ok (.binop "/"
              (.binop "/" (.ident "a" none) (.ident "b" none) none)
              (.ident "c" none) none)
    ∧ parseTokens [idTok "a", minusTok, idTok "b", divTok, idTok "c", eofTok]
      = .ok (.binop "-" (.ident "a" none)
              (.binop "/" (.ident "b" none) (.ident "c" none) none) none)
    ∧ parseTokens [idTok "a", divTok, idTok "b", minusTok, idTok "c", eofTok]
      = .ok (.binop "-"
              (.binop "/" (.ident "a" none) (.ident "b" none) none)
              (.ident "c" none) none) :=
  c3_left_assoc_precedence "a" "b" "c" minusTok minusTok divTok divTok
    (Or.inr rfl) (Or.inr rfl) (Or.inr rfl) (Or.inr rfl)

/-- C5: `parse()` consumes one full `expr`; afterwards it returns the tree
when the lookahead is EOF and raises the trailing-input error otherwise.
An incomplete expression such as `3 +` fails with a ParseError because the
`factor` rule rejects the EOF token standing where an operand is needed. -/
theorem c5_trailing_input (ts : List Token) (n : AST) (rest : List Token)
    (h : parseStep (fuelFor ts) .expr ts = .ok (n, rest)) :
    ((curr rest).type = "EOF" → parseTokens ts = .ok n)
    ∧ ((curr rest).type ≠ "EOF" →
        parseTokens ts = .error (.trailing (curr rest)))
    ∧ parseText "3 +" = .error (.parseErr (.unexpectedFactor eofTok)) := by
  refine ⟨fun he => ?_, fun he => ?_, by decide⟩
  · simp only [parseTokens, h]
    rw [if_pos he]
  · simp only [parseTokens, h]
    rw [if_neg he]

theorem c5_trailing_input_witness :
    ((curr [⟨"NUMBER", "2"⟩, eofTok]).type = "EOF" →
      parseTokens [⟨"NUMBER", "1"⟩, ⟨"NUMBER", "2"⟩, eofTok]
        = .ok (.num "1" (.intV 1)))
    ∧ ((curr [⟨"NUMBER", "2"⟩, eofTok]).type ≠ "EOF" →
        parseTokens [⟨"NUMBER", "1"⟩, ⟨"NUMBER", "2"⟩, eofTok]
          = .error (.trailing (curr [⟨"NUMBER", "2"⟩, eofTok])))
    ∧ parseText "3 +" = .error (.parseErr (.unexpectedFactor eofTok)) :=
  c5_trailing_input [⟨"NUMBER", "1"⟩, ⟨"NUMBER", "2"⟩, eofTok]
    (.num "1" (.intV 1)) [⟨"NUMBER", "2"⟩, eofTok] (by decide)

theorem mem_dropWhile_of_mem (p : Char → Bool) (l : List Char) (c : Char)
    (hc : c ∈ l) (hp : p c = false) : c ∈ List.dropWhile p l := by
  rw [← List.takeWhile_append_dropWhile (p := p) (l := l)] at hc
  rcases List.mem_append.1 hc with h | h
  · have := List.mem_takeWhile_imp h
    rw [hp] at this
    cases this
  · exact h

theorem isMismatchChar_spec {c : Char} (h : isMismatchChar c = true) :
    c.isDigit = false ∧ isIdStart c = false ∧ isWordChar c = false
    ∧ opToken? c = none ∧ c ≠ ' ' ∧ c ≠ '\t' ∧ c ≠ '\n' ∧ c ≠ '.' := by
  simp only [isMismatchChar, Bool.not_eq_true', Bool.or_eq_false_iff] at h
  obtain ⟨⟨⟨⟨⟨⟨h1, h2⟩, h3⟩, h4⟩, h5⟩, h6⟩, h7⟩ := h
  have h2' : c.isAlpha = false ∧ c ≠ '_' := by
    simpa [isIdStart, Bool.or_eq_false_iff] using h2
  refine ⟨h1, h2, ?_, ?_, ?_, ?_, ?_, ?_⟩
  · simp [isWordChar, h1, h2'.1, h2'.2]
  · cases hop : opToken? c with
    | none => rfl
    | some t => rw [hop] at h3; cases h3
  · simpa using h4
  · simpa using h5
  · simpa using h6
  · simpa using h7

/-- Any input containing a character on which the `MISMATCH` pattern fires
is rejected by the scanner, with the invalid-character error naming some
such offending character of the input. -/
theorem tokenizeF_mismatch :
    ∀ (fuel : Nat) (cs : List Char), cs.length < fuel →
      (∃ c ∈ cs, isMismatchChar c = true) →
      ∃ c0 ∈ cs, tokenizeF fuel cs = .error (.invalidChar c0) := by
  intro fuel
  induction fuel with
  | zero => intro cs h _; exact absurd h (Nat.not_lt_zero _)
  | succ fuel ih =>
    intro cs hlen hex
    obtain ⟨c', hc', hm'⟩ := hex
    obtain ⟨hdg, hid, hwc, hopn, hsp, htb, hnl, hdot⟩ := isMismatchChar_spec hm'
    cases cs with
    | nil => cases hc'
    | cons c cs =>
      have hlen' : cs.length < fuel := by
        simp only [List.length_cons] at hlen
        omega
      by_cases hd : c.isDigit
      · have hcc : c' ∈ cs := by
          rcases List.mem_cons.1 hc' with rfl | h
          · rw [hd] at hdg; cases hdg
          · exact h
        have hcd : c' ∈ List.dropWhile Char.isDigit cs :=
          mem_dropWhile_of_mem _ _ _ hcc hdg
        have hsubd : ∀ x, x ∈ List.dropWhile Char.isDigit cs → x ∈ c :: cs :=
          fun x hx => List.mem_cons_of_mem _ (List.dropWhile_subset _ hx)
        by_cases hfr : (List.dropWhile Char.isDigit cs).head? = some '.'
            ∧ List.takeWhile Char.isDigit (List.dropWhile Char.isDigit cs).tail ≠ []
        · -- fractional part consumed; the offending char survives past it
          have hh := hfr.1
          have htl : c' ∈ (List.dropWhile Char.isDigit cs).tail := by
            cases hdw : List.dropWhile Char.isDigit cs with
            | nil => rw [hdw] at hcd; cases hcd
            | cons d t =>
              rw [hdw] at hh hcd
              simp only [List.head?_cons, Option.some.injEq] at hh
              rcases List.mem_cons.1 hcd with rfl | h
              · exact absurd hh hdot
              · exact h
          have hrest : c' ∈ List.dropWhile Char.isDigit
              (List.dropWhile Char.isDigit cs).tail :=
            mem_dropWhile_of_mem _ _ _ htl hdg
          have hlr : (List.dropWhile Char.isDigit
              (List.dropWhile Char.isDigit cs).tail).length < fuel := by
            have l1 := (List.dropWhile_sublist (l := (List.dropWhile Char.isDigit
              cs).tail) Char.isDigit).length_le
            have l2 := (List.dropWhile_sublist (l := cs) Char.isDigit).length_le
            have l3 : (List.dropWhile Char.isDigit cs).tail.length
                ≤ (List.dropWhile Char.isDigit cs).length - 1 :=
              le_of_eq (List.length_tail _)
            omega
          obtain ⟨c0, hc0, htk⟩ := ih _ hlr ⟨c', hrest, hm'⟩
          refine ⟨c0, ?_, ?_⟩
          · have h1 : c0 ∈ (List.dropWhile Char.isDigit cs).tail :=
              List.dropWhile_subset _ hc0
            have h2 : c0 ∈ List.dropWhile Char.isDigit cs := by
              cases hdw : List.dropWhile Char.isDigit cs with
              | nil => rw [hdw] at h1; cases h1
              | cons d t => rw [hdw] at h1; exact List.mem_cons_of_mem _ h1
            exact hsubd _ h2
          · simp only [tokenizeF, hd, ite_true]
            rw [if_pos hfr, htk]
            rfl
        · -- no fractional part: rescan from the first non-digit
          have hlr : (List.dropWhile Char.isDigit cs).length < fuel := by
            have := (List.dropWhile_sublist (l := cs) Char.isDigit).length_le
            omega
          obtain ⟨c0, hc0, htk⟩ := ih _ hlr ⟨c', hcd, hm'⟩
          refine ⟨c0, hsubd _ hc0, ?_⟩
          simp only [tokenizeF, hd, ite_true]
          rw [if_neg hfr, htk]
          rfl
      · by_cases hi : isIdStart c = true
        · have hcc : c' ∈ cs := by
            rcases List.mem_cons.1 hc' with rfl | h
            · rw [hi] at hid; cases hid
            · exact h
          have hnw : isWordChar c' = false := hwc
          have hcd : c' ∈ List.dropWhile isWordChar cs :=
            mem_dropWhile_of_mem _ _ _ hcc hnw
          have hlr : (List.dropWhile isWordChar cs).length < fuel := by
            have := (List.dropWhile_sublist (l := cs) isWordChar).length_le
            omega
          obtain ⟨c0, hc0, htk⟩ := ih _ hlr ⟨c', hcd, hm'⟩
          refine ⟨c0, List.mem_cons_of_mem _ (List.dropWhile_subset _ hc0), ?_⟩
          simp only [tokenizeF, hd, hi, htk, Except.map_error, if_true,
            ite_true, ite_false, if_neg, not_false_eq_true, Bool.false_eq_true]
          rfl
        · cases hop : opToken? c with
          | some t =>
            have hcc : c' ∈ cs := by
              rcases List.mem_cons.1 hc' with rfl | h
              · rw [hop] at hopn; cases hopn
              · exact h
            obtain ⟨c0, hc0, htk⟩ := ih _ hlen' ⟨c', hcc, hm'⟩
            refine ⟨c0, List.mem_cons_of_mem _ hc0, ?_⟩
            simp only [tokenizeF, hd, hi, hop, htk, Except.map_error,
              ite_false, if_neg, not_false_eq_true, Bool.false_eq_true]
            rfl
          | none =>
            by_cases hws : c = ' ' ∨ c = '\t'
            · have hcc : c' ∈ cs := by
                rcases List.mem_cons.1 hc' with rfl | h
                · rcases hws with rfl | rfl
                  · exact absurd rfl hsp
                  · exact absurd rfl htb
                · exact h
              obtain ⟨c0, hc0, htk⟩ := ih _ hlen' ⟨c', hcc, hm'⟩
              refine ⟨c0, List.mem_cons_of_mem _ hc0, ?_⟩
              simp only [tokenizeF, hd, hi, hop, hws, htk, ite_true,
                ite_false, if_neg, not_false_eq_true, Bool.false_eq_true]
            · by_cases hnw2 : c = '\n'
              · have hcc : c' ∈ cs := by
                  rcases List.mem_cons.1 hc' with rfl | h
                  · exact absurd hnw2 hnl
                  · exact h
                obtain ⟨c0, hc0, htk⟩ := ih _ hlen' ⟨c', hcc, hm'⟩
                refine ⟨c0, List.mem_cons_of_mem _ hc0, ?_⟩
                subst hnw2
                simp +decide only [tokenizeF, opToken?, htk, ite_true, ite_false]
              · refine ⟨c, List.mem_cons_self _ _, ?_⟩
                simp only [tokenizeF, hd, hi, hop, hws, hnw2, ite_false,
                  if_neg, not_false_eq_true, Bool.false_eq_true]

/-- C6 (amended): for every input containing a character that matches no
token pattern (not a digit, letter, underscore, operator, parenthesis,
space, tab — and neither a newline, which the regex scan silently skips,
nor a dot, which a digit run can absorb), lexing fails with a LexError
naming such an offending character of the input; the error carries no
position.  The spec's example `3 & 2` fails naming `&`. -/
theorem c6_lex_error (cs : List Char)
    (h : ∃ c ∈ cs, isMismatchChar c = true) :
    (∃ c0 ∈ cs, tokenize cs = .error (.invalidChar c0))
    ∧ tokenize "3 & 2".data = .error (.invalidChar '&') :=
  ⟨tokenizeF_mismatch (cs.length + 1) cs (Nat.lt_succ_self _) h, by decide⟩

theorem c6_lex_error_witness :
    (∃ c0 ∈ "3 & 2".data, tokenize "3 & 2".data = .error (.invalidChar c0))
    ∧ tokenize "3 & 2".data = .error (.invalidChar '&') :=
  c6_lex_error "3 & 2".data (by decide)

/-- C6 counterexample: the lexical error is the very same value whether the
offending `&` is at position 0 or at position 1 of the input, so the raised
error names only the character, not its position. -/
theorem c6_counterexample :
    tokenize "1&".data = tokenize "&1".data
    ∧ tokenize "1&".data = .error (.invalidChar '&') :=
  ⟨by decide, by decide⟩

/-- Every tree the recursive-descent parser produces is freshly parsed:
`num` slots hold their construction-time literal value, `ident` and `binop`
slots are still absent. -/
theorem parseStep_fresh :
    ∀ (fuel : Nat) (mode : PMode) (ts : List Token) (a : AST) (rest : List Token),
      modeFresh mode → parseStep fuel mode ts = .ok (a, rest) → freshlyParsed a := by
  intro fuel
  induction fuel with
  | zero =>
    intro mode ts a rest _ h
    simp [parseStep] at h
  | succ fuel ih =>
    intro mode ts a rest hm h
    cases mode with
    | expr =>
      simp only [parseStep] at h
      cases h1 : parseStep fuel .term ts with
      | error e => rw [h1] at h; simp at h
      | ok p =>
        obtain ⟨n, ts1⟩ := p
        rw [h1] at h
        exact ih (.exprLoop n) ts1 a rest (ih .term ts n ts1 trivial h1) h
    | term =>
      simp only [parseStep] at h
      cases h1 : parseStep fuel .factor ts with
      | error e => rw [h1] at h; simp at h
      | ok p =>
        obtain ⟨n, ts1⟩ := p
        rw [h1] at h
        exact ih (.termLoop n) ts1 a rest (ih .factor ts n ts1 trivial h1) h
    | exprLoop node =>
      simp only [parseStep] at h
      by_cases hc : (curr ts).type = "PLUS" ∨ (curr ts).type = "MINUS"
      · rw [if_pos hc] at h
        cases h2 : (if (curr ts).type = "PLUS" then eat "PLUS" ts
            else eat "MINUS" ts) with
        | error e => rw [h2] at h; simp at h
        | ok ts1 =>
          rw [h2] at h
          dsimp only [] at h
          cases h3 : parseStep fuel .term ts1 with
          | error e => rw [h3] at h; simp at h
          | ok p =>
            obtain ⟨right, ts2⟩ := p
            rw [h3] at h
            exact ih (.exprLoop (.binop (curr ts).lexeme node right none)) ts2 a
              rest ⟨rfl, hm, ih .term ts1 right ts2 trivial h3⟩ h
      · rw [if_neg hc] at h
        simp at h
        obtain ⟨rfl, rfl⟩ := h
        exact hm
    | termLoop node =>
      simp only [parseStep] at h
      by_cases hc : (curr ts).type = "MUL" ∨ (curr ts).type = "DIV"
      · rw [if_pos hc] at h
        cases h2 : (if (curr ts).type = "MUL" then eat "MUL" ts
            else eat "DIV" ts) with
        | error e => rw [h2] at h; simp at h
        | ok ts1 =>
          rw [h2] at h
          dsimp only [] at h
          cases h3 : parseStep fuel .factor ts1 with
          | error e => rw [h3] at h; simp at h
          | ok p =>
            obtain ⟨right, ts2⟩ := p
            rw [h3] at h
            exact ih (.termLoop (.binop (curr ts).lexeme node right none)) ts2 a
              rest ⟨rfl, hm, ih .factor ts1 right ts2 trivial h3⟩ h
      · rw [if_neg hc] at h
        simp at h
        obtain ⟨rfl, rfl⟩ := h
        exact hm
    | factor =>
      simp only [parseStep] at h
      by_cases hc1 : (curr ts).type = "LPAREN"
      · rw [if_pos hc1] at h
        cases h2 : eat "LPAREN" ts with
        | error e => rw [h2] at h; simp at h
        | ok ts1 =>
          rw [h2] at h
          dsimp only [] at h
          cases h3 : parseStep fuel .expr ts1 with
          | error e => rw [h3] at h; simp at h
          | ok p =>
            obtain ⟨n, ts2⟩ := p
            rw [h3] at h
            dsimp only [] at h
            cases h4 : eat "RPAREN" ts2 with
            | error e => rw [h4] at h; simp at h
            | ok ts3 =>
              rw [h4] at h
              simp at h
              obtain ⟨rfl, rfl⟩ := h
              exact ih .expr ts1 n ts2 trivial h3
      · rw [if_neg hc1] at h
        by_cases hc2 : (curr ts).type = "NUMBER"
        · rw [if_pos hc2] at h
          cases h2 : eat "NUMBER" ts with
          | error e => rw [h2] at h; simp at h
          | ok ts1 =>
            rw [h2] at h
            simp at h
            obtain ⟨rfl, rfl⟩ := h
            simp [NumberNode, freshlyParsed]
        · rw [if_neg hc2] at h
          by_cases hc3 : (curr ts).type = "ID"
          · rw [if_pos hc3] at h
            cases h2 : eat "ID" ts with
            | error e => rw [h2] at h; simp at h
            | ok ts1 =>
              rw [h2] at h
              simp at h
              obtain ⟨rfl, rfl⟩ := h
              simp [freshlyParsed]
          · rw [if_neg hc3] at h
            simp at h

/-- A successful `Parser.parse()` on any input hands back a freshly parsed
tree. -/
theorem parseText_fresh (s : String) (t : AST) (h : parseText s = .ok t) :
    freshlyParsed t := by
  unfold parseText at h
  cases htk : tokenize s.data with
  | error e => rw [htk] at h; simp at h
  | ok ts =>
    rw [htk] at h
    dsimp only [] at h
    cases hp : parseTokens ts with
    | error e => rw [hp] at h; simp at h
    | ok t' =>
      rw [hp] at h
      simp at h
      subst h
      unfold parseTokens at hp
      cases hps : parseStep (fuelFor ts) .expr ts with
      | error e => rw [hps] at hp; simp at hp
      | ok p =>
        obtain ⟨n, rest⟩ := p
        rw [hps] at hp
        dsimp only [] at hp
        by_cases he : (curr rest).type = "EOF"
        · rw [if_pos he] at hp
          simp at hp
          subst hp
          exact parseStep_fresh _ .expr ts _ rest trivial hps
        · rw [if_neg he] at hp
          simp at hp

/-- A successful evaluation pass writes every node's decoration slot
exactly once. -/
theorem evalW_counts (st : SymbolTable) (t : AST) (v : Value)
    (h : (evalW st t).2 = .ok v) : (evalW st t).1 = onesOf t := by
  induction t generalizing v with
  | num text w => simp [evalW, onesOf]
  | ident n w =>
    cases hg : st.get n with
    | none => simp [evalW, hg] at h
    | some sym => simp [evalW, hg, onesOf]
  | binop op l r w ihl ihr =>
    rcases hel : evalW st l with ⟨cl, el⟩
    rcases el with e | lv
    · simp [evalW, hel] at h
    · rcases her : evalW st r with ⟨cr, er⟩
      rcases er with e | rv
      · simp [evalW, hel, her] at h
      · rcases hor : opResult op lv rv with e | res
        · simp [evalW, hel, her, hor] at h
        · have hcl : cl = onesOf l := by
            have h1 := ihl lv (by rw [hel])
            rw [hel] at h1
            exact h1
          have hcr : cr = onesOf r := by
            have h1 := ihr rv (by rw [her])
            rw [her] at h1
            exact h1
          simp only [evalW, hel, her, hor, onesOf, hcl, hcr]

/-- The decoration each successful evaluation leaves at the root is the
value the node's own evaluation step returned. -/
theorem eval_root_decor (st : SymbolTable) (t t' : AST) (v : Value)
    (h : eval st t = (t', .ok v)) : decorOf t' = some v := by
  cases t with
  | num text w =>
    simp only [eval, Prod.mk.injEq, Except.ok.injEq] at h
    obtain ⟨rfl, rfl⟩ := h
    rfl
  | ident n w =>
    cases hg : st.get n with
    | none => simp [eval, hg] at h
    | some sym =>
      simp only [eval, hg, Prod.mk.injEq, Except.ok.injEq] at h
      obtain ⟨rfl, rfl⟩ := h
      rfl
  | binop op l r w =>
    rcases hel : eval st l with ⟨l', el⟩
    rcases el with e | lv
    · simp [eval, hel] at h
    · rcases her : eval st r with ⟨r', er⟩
      rcases er with e | rv
      · simp [eval, hel, her] at h
      · rcases hor : opResult op lv rv with e | res
        · simp [eval, hel, her, hor] at h
        · simp only [eval, hel, her, hor, Prod.mk.injEq, Except.ok.injEq] at h
          obtain ⟨rfl, rfl⟩ := h
          rfl

/-- C9 counterexample: a decoration is already present right after parsing:
the parse of `3` is a NumberNode whose slot holds the value 3 rather than an
absent decoration, because `NumberNode.__init__` writes the slot at
construction time. -/
theorem c9_counterexample :
    parseText "3" = .ok (.num "3" (.intV 3))
    ∧ decorOf (.num "3" (.intV 3)) ≠ none :=
  ⟨by decide, by decide⟩

/-- C9 (amended): after parsing, Identifier and BinaryOp nodes carry an
absent decoration while NumberLiteral nodes already hold their literal's
value, written at construction; during an evaluation pass that succeeds,
every node's slot is written exactly once, by that node's own step after
both children (if any) were evaluated, and the decoration left at the root
is the value that step returned. -/
theorem c9_decoration_discipline :
    (∀ (s : String) (t : AST), parseText s = .ok t → freshlyParsed t)
    ∧ (∀ (st : SymbolTable) (t : AST) (v : Value),
        (evalW st t).2 = .ok v → (evalW st t).1 = onesOf t)
    ∧ (∀ (st : SymbolTable) (t t' : AST) (v : Value),
        eval st t = (t', .ok v) → decorOf t' = some v) :=
  ⟨fun s t h => parseText_fresh s t h,
   fun st t v h => evalW_counts st t v h,
   fun st t t' v h => eval_root_decor st t t' v h⟩

theorem c9_decoration_discipline_witness :
    freshlyParsed (.binop "+" (.num "3" (.intV 3)) (.ident "x" none) none)
    ∧ (evalW [("x", ⟨"x", "number", .intV 2⟩)]
        (.binop "+" (.num "3" (.intV 3)) (.ident "x" none) none)).1
      = onesOf (.binop "+" (.num "3" (.intV 3)) (.ident "x" none) none)
    ∧ decorOf (.binop "+" (.num "3" (.intV 3)) (.ident "x" (some (.intV 2)))
        (some (.intV 5))) = some (.intV 5) :=
  ⟨c9_decoration_discipline.1 "3 + x" _ (by decide),
   c9_decoration_discipline.2.1 [("x", ⟨"x", "number", .intV 2⟩)] _ (.intV 5)
     (by decide),
   c9_decoration_discipline.2.2 [("x", ⟨"x", "number", .intV 2⟩)]
     (.binop "+" (.num "3" (.intV 3)) (.ident "x" none) none) _ (.intV 5)
     (by decide)⟩

end EDTS
